import Mathlib

/-!
Verification of the static site generator (src/main.rs) against its
specification.  The program text is shallowly embedded: strings are
`List Char` (the delimiters involved are ASCII, so Rust's byte indices
coincide with character indices), filesystem paths are lists of path
components, and every filesystem or library effect (template loading,
directory creation, Tera rendering, file writing) is an explicit oracle
passed into the model.
-/

deriving instance DecidableEq for Except

/-- The opening front-matter delimiter checked by
`content.starts_with("---\n")` (main.rs line 32). -/
def openDelim : List Char := "---\n".toList

/-- The closing front-matter delimiter searched by
`content.find("\n---\n")` (main.rs line 33). -/
def nl3nl : List Char := "\n---\n".toList

/-- Model of Rust `str::find(pat)`: index of the first occurrence of the
substring `pat`, if any. -/
def findSubstring (pat : List Char) : List Char → Option Nat
  | [] => if pat.isEmpty then some 0 else none
  | c :: rest =>
    if pat.isPrefixOf (c :: rest) then some 0
    else (findSubstring pat rest).map (· + 1)

/-- Split a string into its lines (separator `'\n'`, the separator not
included; a trailing newline yields a final empty line). -/
def splitOnNL : List Char → List (List Char)
  | [] => [[]]
  | c :: rest =>
    if c = '\n' then [] :: splitOnNL rest
    else
      match splitOnNL rest with
      | [] => [[c]]
      | l :: ls => (c :: l) :: ls

/-- `PageMetadata` (main.rs lines 19-24): `title` is required,
`description` defaults to the empty string via `#[serde(default)]`. -/
structure PageMetadata where
  title : List Char
  description : List Char
deriving DecidableEq, Repr

/-- The key of the required `title` field. -/
def titleKey : List Char := "title".toList

/-- The key of the optional `description` field. -/
def descKey : List Char := "description".toList

/-- One `key: value` line of a flat YAML block mapping: the key is the
text before the first `": "`, the value the text after it.  Lines that
are not of this shape make the whole block unparsable. -/
def parseEntry (l : List Char) : Option (List Char × List Char) :=
  match findSubstring [':', ' '] l with
  | some i => some (l.take i, l.drop (i + 2))
  | none => none

/-- Parse every line of the block as a `key: value` entry. -/
def allEntries : List (List Char) → Option (List (List Char × List Char))
  | [] => some []
  | l :: ls =>
    match parseEntry l with
    | none => none
    | some e => (allEntries ls).map (e :: ·)

/-- First value bound to key `k` in an entry list. -/
def lookupKey (k : List Char) : List (List Char × List Char) → Option (List Char)
  | [] => none
  | (k', v) :: rest => if k' = k then some v else lookupKey k rest

/-- Model of `serde_yaml::from_str::<PageMetadata>` (main.rs line 35) on a
flat block mapping of plain scalars: each nonempty line is a `key: value`
entry, a duplicate key is rejected (YAML's duplicate-key rule, exercised
by the repository's `test_malformed_yaml` test), unknown keys are ignored
(serde's default), `title` is required and `description` defaults to the
empty string. -/
def parseYaml (block : List Char) : Except Unit PageMetadata :=
  let lines := (splitOnNL block).filter (fun l => l ≠ [])
  match allEntries lines with
  | none => .error ()
  | some entries =>
    if (entries.map Prod.fst).Nodup then
      match lookupKey titleKey entries with
      | some t => .ok ⟨t, (lookupKey descKey entries).getD []⟩
      | none => .error ()
    else .error ()

/-- Result of `parse_markdown_file`, split into the metadata and the
Markdown body handed to the (black-box, total) Markdown renderer.
`err` is the `Err(_)` return (YAML parse failure or unreadable file);
`panics` models the Rust slice panic `&content[4..end]` when
`end < 4`. -/
inductive ParseResult where
  | ok (metadata : Option PageMetadata) (markdown : List Char)
  | err
  | panics
deriving DecidableEq, Repr

/-- A scalar value the modelled YAML parser treats exactly as
`serde_yaml` does: nonempty, a single line, no `:` or `#`, no leading or
trailing blank (so the plain scalar is taken verbatim). -/
def plainScalar (v : List Char) : Prop :=
  v ≠ [] ∧ (∀ c ∈ v, c ≠ '\n' ∧ c ≠ ':' ∧ c ≠ '#')
    ∧ v.head? ≠ some ' ' ∧ v.getLast? ≠ some ' '

instance (v : List Char) : Decidable (plainScalar v) := by
  unfold plainScalar
  infer_instance

/-- A text beginning with this prefix (an immediately closed front-matter
block) drives the slice `&content[4..end]` with `end = 3` and panics. -/
def panicDelim : List Char := "---\n---\n".toList

/-- Front-matter handling of `parse_markdown_file` (main.rs lines 26-51):
if the text starts with `"---\n"` and contains `"\n---\n"` at index `e`,
the block `content[4..e]` is parsed as YAML and the body is
`content[e+5..]`; with no closing delimiter, or no opening delimiter, the
whole text is the body and there is no metadata.  When `e < 4` (text
starting `"---\n---\n"`) the Rust slice `&content[4..e]` panics. -/
def parse_markdown_file (content : List Char) : ParseResult :=
  if openDelim.isPrefixOf content then
    match findSubstring nl3nl content with
    | some e =>
      if e < 4 then .panics
      else
        match parseYaml ((content.drop 4).take (e - 4)) with
        | .ok md => .ok (some md) (content.drop (e + 5))
        | .error _ => .err
    | none => .ok none content
  else .ok none content

/-! ## Paths

A filesystem path is modelled as its list of components; the final
component is the file name. -/

/-- Split a file name at its last dot: `some (stem, ext)` with the dot
dropped, or `none` when the name has no dot. -/
def lastDotSplit (f : List Char) : Option (List Char × List Char) :=
  let rext := f.reverse.takeWhile (fun c => c ≠ '.')
  if rext.length = f.length then none
  else some (f.take (f.length - rext.length - 1), rext.reverse)

/-- Model of Rust `Path::extension`: the part after the last dot of the
file name, except that a name with no dot, or a name whose last dot is
its first character (such as `".md"`), has no extension. -/
def pathExtension (f : List Char) : Option (List Char) :=
  match lastDotSplit f with
  | none => none
  | some (stem, ext) => if stem = [] then none else some ext

/-- Model of Rust `Path::file_stem`: the part of the file name before
its last dot, or the whole name when `pathExtension` is `none`. -/
def file_stem (f : List Char) : List Char :=
  match lastDotSplit f with
  | none => f
  | some (stem, _) => if stem = [] then f else stem

/-- Model of `path.with_extension("html")` (main.rs line 92): replace the
final component by its stem followed by `".html"`. -/
def with_extension_html (p : List (List Char)) : List (List Char) :=
  if p.isEmpty then p
  else p.dropLast ++ [file_stem ((p.getLast?).getD []) ++ '.' :: "html".toList]

/-- Model of `input_path.strip_prefix(&config.source_dir)` (main.rs
line 83): remove `pre` from the front of `p`, component-wise. -/
def stripPrefixPath (pre p : List (List Char)) : Option (List (List Char)) :=
  if pre.isPrefixOf p then some (p.drop pre.length) else none

/-- `Config` (main.rs lines 11-17); paths are component lists. -/
structure Config where
  source_dir : List (List Char)
  output_dir : List (List Char)
  template_file : List Char
  css_file : Option (List Char)

/-- The output path computed for one input path (main.rs lines 83-92):
strip `source_dir`, join onto `output_dir`, replace the extension by
`"html"`; `none` when prefix stripping fails (the file is then
skipped). -/
def output_path_of (cfg : Config) (p : List (List Char)) : Option (List (List Char)) :=
  (stripPrefixPath cfg.source_dir p).map
    (fun rel => with_extension_html (cfg.output_dir ++ rel))

/-! ## The orchestrator (`generate_site` / `main`) -/

/-- The Tera render context built per document (main.rs lines 113-120). -/
structure TeraContext where
  content : List Char
  title : List Char
  description : List Char
  css : Option (List Char)
deriving DecidableEq, Repr

/-- Context construction (main.rs lines 113-120): `title` falls back to
`"Untitled"` and `description` to `""` when there is no metadata; `css`
is inserted only when a stylesheet was configured and read. -/
def buildContext (metadata : Option PageMetadata) (html : List Char)
    (css : Option (List Char)) : TeraContext :=
  { content := html
    title := (metadata.map PageMetadata.title).getD "Untitled".toList
    description := (metadata.map PageMetadata.description).getD []
    css := css }

/-- One enumerated filesystem entry: its full path and, when it could be
read as text, its content (`none` models a `read_to_string` failure). -/
structure Document where
  path : List (List Char)
  text : Option (List Char)
deriving DecidableEq

/-- Oracles for every external effect of `generate_site`: template and
stylesheet loading, directory creation, the two black-box renderers, and
file writing.  Booleans report success of the corresponding call. -/
structure FS where
  templateRead : Option (List Char)
  templateAddOk : Bool
  cssRead : List Char → Option (List Char)
  createOutRootOk : Bool
  createDirOk : List (List Char) → Bool
  renderMarkdown : List Char → List Char
  teraRender : List Char → TeraContext → Option (List Char)
  createFileOk : List (List Char) → Bool
  writeAllOk : List (List Char) → Bool
  copyCssOk : Bool

/-- Outcome of the per-document pipeline: the document is skipped with a
diagnostic, aborts the process by panicking, or an output file is fully
written. -/
inductive DocStep where
  | skip
  | panics
  | done (out : List (List Char) × List Char)
deriving DecidableEq

/-- The per-document pipeline of the walker loop (main.rs lines 76-142):
Markdown-extension filter, prefix stripping, parent-directory creation,
front-matter split and YAML parse (the Markdown rendering inside
`parse_markdown_file` is the external renderer `fs.renderMarkdown`
applied to the returned body), context build, Tera render, file create
and write.  Every failure yields `skip`; the slice panic propagates. -/
def processDoc (cfg : Config) (fs : FS) (tpl : List Char)
    (css : Option (List Char)) (d : Document) : DocStep :=
  if pathExtension ((d.path.getLast?).getD []) ≠ some "md".toList then .skip
  else
    match stripPrefixPath cfg.source_dir d.path with
    | none => .skip
    | some rel =>
      let outPath := with_extension_html (cfg.output_dir ++ rel)
      if ¬ fs.createDirOk outPath.dropLast then .skip
      else
        match d.text with
        | none => .skip
        | some t =>
          match parse_markdown_file t with
          | .panics => .panics
          | .err => .skip
          | .ok metadata md =>
            match fs.teraRender tpl (buildContext metadata (fs.renderMarkdown md) css) with
            | none => .skip
            | some html =>
              if ¬ fs.createFileOk outPath then .skip
              else if ¬ fs.writeAllOk outPath then .skip
              else .done (outPath, html)

/-- The walker loop over the enumerated entries: skipped documents leave
no trace, a panic aborts the run (`none`), otherwise the fully written
output files are collected in order. -/
def runDocs (cfg : Config) (fs : FS) (tpl : List Char) (css : Option (List Char)) :
    List Document → Option (List (List (List Char) × List Char))
  | [] => some []
  | d :: ds =>
    match processDoc cfg fs tpl css d with
    | .panics => none
    | .skip => runDocs cfg fs tpl css ds
    | .done out => (runDocs cfg fs tpl css ds).map (out :: ·)

/-- The fatal error causes of `generate_site` (main.rs lines 53-73):
template read failure, template parse failure (`add_raw_template`),
stylesheet read failure, output-root creation failure. -/
inductive GenError where
  | templateReadError
  | templateAddError
  | cssReadError
  | createOutputDirError
deriving DecidableEq

/-- Result of a whole `generate_site` run: an early fatal `Err(_)`, a
process-aborting panic in the loop, or `Ok(())` together with the list
of output files fully written. -/
inductive GenResult where
  | fatal (e : GenError)
  | panicked
  | ok (written : List (List (List Char) × List Char))
deriving DecidableEq

/-- The stylesheet-loading step (main.rs lines 62-68): absent stylesheet
loads nothing, a configured one must read successfully (the `?` makes a
read failure fatal). -/
def cssLoad (cfg : Config) (fs : FS) : Except Unit (Option (List Char)) :=
  match cfg.css_file with
  | none => .ok none
  | some p =>
    match fs.cssRead p with
    | some c => .ok (some c)
    | none => .error ()

/-- `generate_site` (main.rs lines 53-154): load the template (read,
then parse), load the optional stylesheet, create the output root — each
failure fatal — then run the walker loop; the final stylesheet copy is
best-effort and cannot fail the run. -/
def generate_site (cfg : Config) (fs : FS) (docs : List Document) : GenResult :=
  match fs.templateRead with
  | none => .fatal .templateReadError
  | some tpl =>
    if ¬ fs.templateAddOk then .fatal .templateAddError
    else
      match cssLoad cfg fs with
      | .error _ => .fatal .cssReadError
      | .ok css =>
        if ¬ fs.createOutRootOk then .fatal .createOutputDirError
        else
          match runDocs cfg fs tpl css docs with
          | none => .panicked
          | some written => .ok written

/-- Process exit status: `failure` is any non-zero termination. -/
inductive ExitStatus where
  | success
  | failure
deriving DecidableEq

/-- `main` (main.rs lines 156-162; named `rustMain` here because Lean
reserves `main`): an unreadable or unparsable `config.toml` (modelled by
`configLoad = none`) is fatal, then `generate_site` runs; a fatal error
or a panic terminates the process with a non-zero status. -/
def rustMain (configLoad : Option Config) (fs : FS) (docs : List Document) : ExitStatus :=
  match configLoad with
  | none => .failure
  | some cfg =>
    match generate_site cfg fs docs with
    | .ok _ => .success
    | _ => .failure

/-! ## Properties of `findSubstring` -/

theorem findSubstring_cons_neg (pat : List Char) (c : Char) (s : List Char)
    (h : pat.isPrefixOf (c :: s) = false) :
    findSubstring pat (c :: s) = (findSubstring pat s).map (· + 1) := by
  simp [findSubstring, h]

theorem findSubstring_of_isPrefixOf (pat s : List Char) (h : pat.isPrefixOf s = true) :
    findSubstring pat s = some 0 := by
  cases s with
  | nil =>
    have hp : pat = [] := List.prefix_nil.mp (List.isPrefixOf_iff_prefix.mp h)
    simp [findSubstring, hp]
  | cons c rest => simp [findSubstring, h]

theorem findSubstring_append_notMem (p : Char) (ps s r : List Char) (h : p ∉ s) :
    findSubstring (p :: ps) (s ++ r)
      = (findSubstring (p :: ps) r).map (· + s.length) := by
  induction s with
  | nil => simp
  | cons c s ih =>
    have hc : (p :: ps).isPrefixOf (c :: (s ++ r)) = false := by
      rw [Bool.eq_false_iff]
      intro hpc
      rcases List.cons_prefix_cons.mp (List.isPrefixOf_iff_prefix.mp hpc) with ⟨h1, -⟩
      exact h (h1 ▸ List.mem_cons_self p (s : List Char))
    rw [List.cons_append, findSubstring_cons_neg _ _ _ hc,
        ih (fun hm => h (List.mem_cons_of_mem _ hm)), Option.map_map]
    have harith : ((fun x => x + 1) ∘ fun x => x + s.length)
        = fun x => x + (c :: s).length := by
      funext x
      simp only [Function.comp_apply, List.length_cons]
      omega
    rw [harith]

theorem findSubstring_isPrefixOf_drop (pat s : List Char) (e : Nat)
    (h : findSubstring pat s = some e) : pat.isPrefixOf (s.drop e) = true := by
  induction s generalizing e with
  | nil =>
    by_cases hp : pat.isEmpty
    · have h0 : e = 0 := by simp [findSubstring, hp] at h; omega
      subst h0
      simp [List.isEmpty_iff.mp hp]
    · simp [findSubstring, hp] at h
  | cons c rest ih =>
    by_cases hp : pat.isPrefixOf (c :: rest) = true
    · rw [findSubstring_of_isPrefixOf _ _ hp] at h
      have h0 : e = 0 := by simp at h; omega
      subst h0
      simpa using hp
    · have hp' : pat.isPrefixOf (c :: rest) = false := Bool.eq_false_iff.mpr hp
      rw [findSubstring_cons_neg _ _ _ hp'] at h
      obtain ⟨e', he', rfl⟩ := Option.map_eq_some'.mp h
      simpa using ih e' he'

theorem findSubstring_min (pat s : List Char) (e : Nat)
    (h : findSubstring pat s = some e) :
    ∀ j, j < e → pat.isPrefixOf (s.drop j) = false := by
  induction s generalizing e with
  | nil =>
    intro j hj
    by_cases hp : pat.isEmpty
    · have h0 : e = 0 := by simp [findSubstring, hp] at h; omega
      omega
    · simp [findSubstring, hp] at h
  | cons c rest ih =>
    intro j hj
    by_cases hp : pat.isPrefixOf (c :: rest) = true
    · rw [findSubstring_of_isPrefixOf _ _ hp] at h
      have h0 : e = 0 := by simp at h; omega
      omega
    · have hp' : pat.isPrefixOf (c :: rest) = false := Bool.eq_false_iff.mpr hp
      rw [findSubstring_cons_neg _ _ _ hp'] at h
      obtain ⟨e', he', rfl⟩ := Option.map_eq_some'.mp h
      cases j with
      | zero => simpa using hp'
      | succ j' => simpa using ih e' he' j' (by omega)

theorem findSubstring_eq_some (pat s : List Char) (e : Nat)
    (hm : pat.isPrefixOf (s.drop e) = true)
    (hmin : ∀ j, j < e → pat.isPrefixOf (s.drop j) = false) :
    findSubstring pat s = some e := by
  induction s generalizing e with
  | nil =>
    have hp : pat = [] := by simpa using hm
    have he : e = 0 := by
      by_contra hne
      have := hmin 0 (by omega)
      simp [hp] at this
    subst he
    simp [findSubstring, hp]
  | cons c rest ih =>
    by_cases hp : pat.isPrefixOf (c :: rest) = true
    · have he : e = 0 := by
        by_contra hne
        have := hmin 0 (by omega)
        rw [List.drop_zero] at this
        simp [hp] at this
      subst he
      exact findSubstring_of_isPrefixOf _ _ hp
    · have hp' : pat.isPrefixOf (c :: rest) = false := Bool.eq_false_iff.mpr hp
      have he : e ≠ 0 := by
        intro h0
        subst h0
        rw [List.drop_zero] at hm
        simp [hm] at hp'
      obtain ⟨e', rfl⟩ : ∃ e', e = e' + 1 := ⟨e - 1, by omega⟩
      rw [findSubstring_cons_neg _ _ _ hp',
          ih e' (by simpa using hm) (fun j hj => by simpa using hmin (j + 1) (by omega))]
      simp

/-! ### The `"\n---\n"` pattern, line by line -/

theorem openDelim_isPrefixOf_cons_false (c : Char) (r : List Char) (h : c ≠ '-') :
    openDelim.isPrefixOf (c :: r) = false := by
  rw [Bool.eq_false_iff]
  intro hpc
  rcases List.cons_prefix_cons.mp (List.isPrefixOf_iff_prefix.mp hpc) with ⟨h1, -⟩
  exact h h1.symm

theorem openDelim_isPrefixOf_append : openDelim.isPrefixOf (openDelim ++ r) = true :=
  List.isPrefixOf_iff_prefix.mpr (List.prefix_append _ _)

theorem findSubstring_nl3nl_line_skip (s r : List Char) (hs : '\n' ∉ s)
    (hr : openDelim.isPrefixOf r = false) :
    findSubstring nl3nl (s ++ '\n' :: r)
      = (findSubstring nl3nl r).map (· + (s.length + 1)) := by
  rw [show nl3nl = '\n' :: openDelim from rfl, findSubstring_append_notMem _ _ _ _ hs]
  have hnp : ('\n' :: openDelim).isPrefixOf ('\n' :: r) = false := by
    simp [List.isPrefixOf, hr]
  rw [findSubstring_cons_neg _ _ _ hnp, Option.map_map]
  congr 1
  funext x
  simp only [Function.comp_apply]
  omega

theorem findSubstring_nl3nl_line_found (s r : List Char) (hs : '\n' ∉ s)
    (hr : openDelim.isPrefixOf r = true) :
    findSubstring nl3nl (s ++ '\n' :: r) = some s.length := by
  rw [show nl3nl = '\n' :: openDelim from rfl, findSubstring_append_notMem _ _ _ _ hs]
  have hnp : ('\n' :: openDelim).isPrefixOf ('\n' :: r) = true := by
    simp [List.isPrefixOf, hr]
  rw [findSubstring_of_isPrefixOf _ _ hnp]
  simp

/-! ## Membership helpers -/

theorem not_nl_append {a b : List Char} (ha : '\n' ∉ a) (hb : '\n' ∉ b) :
    '\n' ∉ a ++ b := by
  intro hm
  exact (List.mem_append.mp hm).elim ha hb

theorem not_nl_mem_colon_space (v : List Char) (hv : '\n' ∉ v) :
    '\n' ∉ ':' :: ' ' :: v := by
  intro hm
  rcases List.mem_cons.mp hm with h | h
  · exact absurd h (by decide)
  · rcases List.mem_cons.mp h with h' | h'
    · exact absurd h' (by decide)
    · exact hv h'

/-! ## Properties of `splitOnNL` -/

theorem splitOnNL_no_nl (s : List Char) (h : '\n' ∉ s) : splitOnNL s = [s] := by
  induction s with
  | nil => rfl
  | cons c s ih =>
    have hc : ¬ (c = '\n') := fun he => h (he ▸ List.mem_cons_self c s)
    simp [splitOnNL, hc, ih (fun hm => h (List.mem_cons_of_mem _ hm))]

theorem splitOnNL_append_nl (s r : List Char) (h : '\n' ∉ s) :
    splitOnNL (s ++ '\n' :: r) = s :: splitOnNL r := by
  induction s with
  | nil => simp [splitOnNL]
  | cons c s ih =>
    have hc : ¬ (c = '\n') := fun he => h (he ▸ List.mem_cons_self c s)
    rw [List.cons_append]
    simp [splitOnNL, hc, ih (fun hm => h (List.mem_cons_of_mem _ hm))]

/-! ## Properties of the modelled YAML parser -/

theorem findSubstring_colon_space (k v : List Char) (hk : ':' ∉ k) :
    findSubstring [':', ' '] (k ++ ':' :: ' ' :: v) = some k.length := by
  have h0 : findSubstring [':', ' '] (':' :: ' ' :: v) = some 0 :=
    findSubstring_of_isPrefixOf [':', ' '] (':' :: ' ' :: v) (by simp [List.isPrefixOf])
  rw [findSubstring_append_notMem ':' [' '] k (':' :: ' ' :: v) hk, h0]
  simp

theorem parseEntry_keyval (k v : List Char) (hk : ':' ∉ k) :
    parseEntry (k ++ ':' :: ' ' :: v) = some (k, v) := by
  unfold parseEntry
  rw [findSubstring_colon_space k v hk]
  have htake : (k ++ ':' :: ' ' :: v).take k.length = k := List.take_left _ _
  have hdrop : (k ++ ':' :: ' ' :: v).drop (k.length + 2) = v := List.drop_append 2
  dsimp only
  rw [htake, hdrop]

theorem allEntries_nil : allEntries [] = some [] := rfl

theorem allEntries_cons (l : List Char) (ls : List (List Char))
    (e : List Char × List Char) (h : parseEntry l = some e) :
    allEntries (l :: ls) = (allEntries ls).map (e :: ·) := by
  simp [allEntries, h]

theorem filter_ne_nil_pair (a b : List Char) (ha : a ≠ []) (hb : b ≠ []) :
    List.filter (fun l => l ≠ []) [a, b] = [a, b] := by
  simp [List.filter_cons, ha, hb]

/-- A well-formed block with a `title` line and a `description` line
parses into exactly that metadata. -/
theorem parseYaml_title_desc (T D : List Char) (hT : '\n' ∉ T) (hD : '\n' ∉ D) :
    parseYaml (("title".toList ++ ':' :: ' ' :: T)
        ++ '\n' :: ("description".toList ++ ':' :: ' ' :: D))
      = .ok ⟨T, D⟩ := by
  have hl1 : '\n' ∉ "title".toList ++ ':' :: ' ' :: T :=
    not_nl_append (by decide) (not_nl_mem_colon_space T hT)
  have hl2 : '\n' ∉ "description".toList ++ ':' :: ' ' :: D :=
    not_nl_append (by decide) (not_nl_mem_colon_space D hD)
  have hsplit : splitOnNL (("title".toList ++ ':' :: ' ' :: T)
        ++ '\n' :: ("description".toList ++ ':' :: ' ' :: D))
      = [("title".toList ++ ':' :: ' ' :: T), ("description".toList ++ ':' :: ' ' :: D)] := by
    rw [splitOnNL_append_nl _ _ hl1, splitOnNL_no_nl _ hl2]
  have hne1 : ("title".toList ++ ':' :: ' ' :: T) ≠ [] := List.cons_ne_nil 't' _
  have hne2 : ("description".toList ++ ':' :: ' ' :: D) ≠ [] := List.cons_ne_nil 'd' _
  have hnodup : (List.map Prod.fst
      [(("title".toList : List Char), T), (("description".toList : List Char), D)]).Nodup := by
    simp only [List.map_cons, List.map_nil]
    decide
  have hne : ("title".toList : List Char) ≠ "description".toList := by decide
  have hp1 : parseEntry ("title".toList ++ ':' :: ' ' :: T) = some ("title".toList, T) :=
    parseEntry_keyval _ _ (by decide)
  have hp2 : parseEntry ("description".toList ++ ':' :: ' ' :: D)
      = some ("description".toList, D) :=
    parseEntry_keyval _ _ (by decide)
  have hents : allEntries
        [("title".toList ++ ':' :: ' ' :: T), ("description".toList ++ ':' :: ' ' :: D)]
      = some [(("title".toList : List Char), T), (("description".toList : List Char), D)] := by
    rw [allEntries_cons _ _ _ hp1, allEntries_cons _ _ _ hp2, allEntries_nil]
    rfl
  simp only [parseYaml, hsplit, filter_ne_nil_pair _ _ hne1 hne2, hents]
  rw [if_pos hnodup]
  simp [lookupKey, titleKey, descKey, hne]

/-! ## Reduction of `parse_markdown_file` once the delimiter search is known -/

theorem parse_markdown_file_eq_of_found (content : List Char) (e : Nat)
    (hopen : openDelim.isPrefixOf content = true)
    (hfind : findSubstring nl3nl content = some e) (he : 4 ≤ e) :
    parse_markdown_file content
      = match parseYaml ((content.drop 4).take (e - 4)) with
        | .ok md => .ok (some md) (content.drop (e + 5))
        | .error _ => .err := by
  unfold parse_markdown_file
  rw [if_pos hopen, hfind]
  dsimp only
  rw [if_neg (by omega)]

theorem plainScalar.not_nl {v : List Char} (h : plainScalar v) : '\n' ∉ v :=
  fun hm => ((h.2.1 '\n' hm).1 rfl)

/-- C1: for a document whose text begins with a well-formed front-matter
block containing `title: T` and `description: D`, `parse_markdown_file`
returns metadata `some {title := T, description := D}` and a Markdown
body equal to the text strictly after the closing delimiter line. -/
theorem c1_front_matter_round_trip (T D body : List Char)
    (hT : plainScalar T) (hD : plainScalar D) :
    parse_markdown_file
        ("---\ntitle: ".toList ++ T ++ "\ndescription: ".toList ++ D
          ++ "\n---\n".toList ++ body)
      = .ok (some ⟨T, D⟩) body := by
  have hTnl : '\n' ∉ T := hT.not_nl
  have hDnl : '\n' ∉ D := hD.not_nl
  -- line structure of the document text
  have hshape : ("---\ntitle: ".toList ++ T ++ "\ndescription: ".toList ++ D
        ++ "\n---\n".toList ++ body)
      = "---".toList ++ '\n' :: ("title: ".toList ++ T
          ++ '\n' :: ("description: ".toList ++ D ++ '\n' :: (openDelim ++ body))) := by
    simp only [List.append_assoc, List.cons_append]
    rfl
  have hsT : '\n' ∉ "title: ".toList ++ T := not_nl_append (by decide) hTnl
  have hsD : '\n' ∉ "description: ".toList ++ D := not_nl_append (by decide) hDnl
  have hrT : openDelim.isPrefixOf ("title: ".toList ++ T
        ++ '\n' :: ("description: ".toList ++ D ++ '\n' :: (openDelim ++ body))) = false :=
    openDelim_isPrefixOf_cons_false 't' _ (by decide)
  have hrD : openDelim.isPrefixOf ("description: ".toList ++ D
        ++ '\n' :: (openDelim ++ body)) = false :=
    openDelim_isPrefixOf_cons_false 'd' _ (by decide)
  have c13 : ("description: ".toList : List Char).length = 13 := rfl
  have c7 : ("title: ".toList : List Char).length = 7 := rfl
  have c3 : ("---".toList : List Char).length = 3 := rfl
  have hfind : findSubstring nl3nl ("---\ntitle: ".toList ++ T ++ "\ndescription: ".toList
        ++ D ++ "\n---\n".toList ++ body) = some (25 + T.length + D.length) := by
    rw [hshape, findSubstring_nl3nl_line_skip "---".toList _ (by decide) hrT,
        findSubstring_nl3nl_line_skip ("title: ".toList ++ T) _ hsT hrD,
        findSubstring_nl3nl_line_found ("description: ".toList ++ D) _ hsD
          openDelim_isPrefixOf_append]
    simp only [Option.map_some', List.length_append, c13, c7, c3, Option.some.injEq]
    omega
  have hopen : openDelim.isPrefixOf ("---\ntitle: ".toList ++ T ++ "\ndescription: ".toList
        ++ D ++ "\n---\n".toList ++ body) = true := by
    rw [hshape]
    exact openDelim_isPrefixOf_append
  rw [parse_markdown_file_eq_of_found _ _ hopen hfind (by omega)]
  have hdrop4 : ("---".toList ++ '\n' :: ("title: ".toList ++ T
        ++ '\n' :: ("description: ".toList ++ D ++ '\n' :: (openDelim ++ body)))).drop 4
      = ("title: ".toList ++ T
          ++ '\n' :: ("description: ".toList ++ D ++ '\n' :: (openDelim ++ body))) := rfl
  have hR1 : ("title: ".toList ++ T
        ++ '\n' :: ("description: ".toList ++ D ++ '\n' :: (openDelim ++ body)))
      = (("title".toList ++ ':' :: ' ' :: T)
          ++ '\n' :: ("description".toList ++ ':' :: ' ' :: D)) ++ ('\n' :: (openDelim ++ body)) := by
    simp only [List.append_assoc, List.cons_append]
    rfl
  have hblock : (("---\ntitle: ".toList ++ T ++ "\ndescription: ".toList ++ D
        ++ "\n---\n".toList ++ body).drop 4).take (25 + T.length + D.length - 4)
      = ("title".toList ++ ':' :: ' ' :: T)
          ++ '\n' :: ("description".toList ++ ':' :: ' ' :: D) := by
    rw [hshape, hdrop4, hR1]
    have c5 : ("title".toList : List Char).length = 5 := rfl
    have c11 : ("description".toList : List Char).length = 11 := rfl
    have hlen : 25 + T.length + D.length - 4
        = (("title".toList ++ ':' :: ' ' :: T)
            ++ '\n' :: ("description".toList ++ ':' :: ' ' :: D)).length := by
      simp only [List.length_append, List.length_cons, c5, c11]
      omega
    rw [hlen, List.take_left]
  have hshapeB : ("---\ntitle: ".toList ++ T ++ "\ndescription: ".toList ++ D
        ++ "\n---\n".toList ++ body)
      = ("---\ntitle: ".toList ++ (T ++ ("\ndescription: ".toList
          ++ (D ++ "\n---\n".toList)))) ++ body := by
    simp only [List.append_assoc]
  have hbody : ("---\ntitle: ".toList ++ T ++ "\ndescription: ".toList ++ D
        ++ "\n---\n".toList ++ body).drop (25 + T.length + D.length + 5) = body := by
    rw [hshapeB]
    have h11 : ("---\ntitle: ".toList : List Char).length = 11 := rfl
    have h14 : ("\ndescription: ".toList : List Char).length = 14 := rfl
    have h5 : ("\n---\n".toList : List Char).length = 5 := rfl
    have hlen : 25 + T.length + D.length + 5
        = ("---\ntitle: ".toList ++ (T ++ ("\ndescription: ".toList
            ++ (D ++ "\n---\n".toList)))).length := by
      simp only [List.length_append, h11, h14, h5]
      omega
    rw [hlen, List.drop_left]
  rw [hblock, parseYaml_title_desc T D hTnl hDnl]
  dsimp only
  rw [hbody]

/-- Witness for C1 at the repository's own test document. -/
theorem c1_witness :
    plainScalar "Test Page".toList ∧ plainScalar "A test page".toList ∧
    parse_markdown_file
        ("---\ntitle: ".toList ++ "Test Page".toList ++ "\ndescription: ".toList
          ++ "A test page".toList ++ "\n---\n".toList ++ "# Hello\n".toList)
      = .ok (some ⟨"Test Page".toList, "A test page".toList⟩) "# Hello\n".toList :=
  ⟨by decide, by decide,
    c1_front_matter_round_trip "Test Page".toList "A test page".toList "# Hello\n".toList
      (by decide) (by decide)⟩

/-! ## Path mapping (C2) -/

theorem lastDotSplit_md (base : List Char) :
    lastDotSplit (base ++ ".md".toList) = some (base, "md".toList) := by
  have hrev : (base ++ ".md".toList).reverse = 'd' :: 'm' :: '.' :: base.reverse := by
    rw [List.reverse_append]
    rfl
  have htw : (('d' :: 'm' :: '.' :: base.reverse).takeWhile (fun c => c ≠ '.'))
      = ['d', 'm'] := by
    simp [List.takeWhile_cons]
  have hlen : (base ++ ".md".toList).length = base.length + 3 := by
    rw [List.length_append]
    rfl
  simp only [lastDotSplit, hrev, htw, hlen]
  rw [if_neg (by simp only [List.length_cons, List.length_nil]; omega)]
  rw [show base.length + 3 - (['d', 'm'] : List Char).length - 1 = base.length from by
    simp only [List.length_cons, List.length_nil]; omega]
  rw [List.take_left]
  rfl

theorem pathExtension_md (base : List Char) (hb : base ≠ []) :
    pathExtension (base ++ ".md".toList) = some "md".toList := by
  unfold pathExtension
  rw [lastDotSplit_md]
  simp [hb]

theorem file_stem_md (base : List Char) (hb : base ≠ []) :
    file_stem (base ++ ".md".toList) = base := by
  unfold file_stem
  rw [lastDotSplit_md]
  simp [hb]

/-- C2: for an input path under `source_dir` ending in the Markdown
extension, at any nesting depth, the computed output path is
`output_dir` joined with the source-relative path, with the extension
replaced by `"html"`; the directory structure is preserved. -/
theorem c2_path_mapping (cfg : Config) (dirs : List (List Char)) (base : List Char)
    (hb : base ≠ []) :
    pathExtension (base ++ ".md".toList) = some "md".toList ∧
    output_path_of cfg (cfg.source_dir ++ dirs ++ [base ++ ".md".toList])
      = some (cfg.output_dir ++ dirs ++ [base ++ ".html".toList]) := by
  refine ⟨pathExtension_md base hb, ?_⟩
  unfold output_path_of stripPrefixPath
  have hpre : cfg.source_dir.isPrefixOf
      (cfg.source_dir ++ dirs ++ [base ++ ".md".toList]) = true := by
    rw [List.isPrefixOf_iff_prefix, List.append_assoc]
    exact List.prefix_append _ _
  rw [if_pos hpre]
  have hdrop : (cfg.source_dir ++ dirs ++ [base ++ ".md".toList]).drop cfg.source_dir.length
      = dirs ++ [base ++ ".md".toList] := by
    rw [List.append_assoc, List.drop_left]
  rw [hdrop]
  simp only [Option.map_some', Option.some.injEq]
  unfold with_extension_html
  rw [if_neg (by simp [List.isEmpty_iff])]
  have hdl : (cfg.output_dir ++ (dirs ++ [base ++ ".md".toList])).dropLast
      = cfg.output_dir ++ dirs := by
    rw [← List.append_assoc]
    exact List.dropLast_concat
  have hgl : (cfg.output_dir ++ (dirs ++ [base ++ ".md".toList])).getLast?
      = some (base ++ ".md".toList) := by
    rw [← List.append_assoc]
    exact List.getLast?_concat _
  rw [hdl, hgl]
  simp only [Option.getD_some]
  rw [file_stem_md base hb]
  rfl

/-- Witness for C2 at a concrete nested path. -/
theorem c2_witness :
    pathExtension ("page".toList ++ ".md".toList) = some "md".toList ∧
    output_path_of ⟨["src".toList], ["out".toList], "t.html".toList, none⟩
        (["src".toList] ++ ["sub".toList] ++ ["page".toList ++ ".md".toList])
      = some (["out".toList] ++ ["sub".toList] ++ ["page".toList ++ ".html".toList]) :=
  c2_path_mapping ⟨["src".toList], ["out".toList], "t.html".toList, none⟩
    ["sub".toList] "page".toList (by decide)

/-! ## Lines and the absence of a closing delimiter (C7, C8) -/

theorem cons_isPrefixOf_cons_false (a : Char) (l : List Char) (c : Char) (r : List Char)
    (h : c ≠ a) : (a :: l).isPrefixOf (c :: r) = false := by
  rw [Bool.eq_false_iff]
  intro hp
  rcases List.cons_prefix_cons.mp (List.isPrefixOf_iff_prefix.mp hp) with ⟨h1, -⟩
  exact h h1.symm

theorem splitOnNL_ne_nil (s : List Char) : splitOnNL s ≠ [] := by
  induction s with
  | nil => simp [splitOnNL]
  | cons c s ih =>
    by_cases hc : c = '\n'
    · simp [splitOnNL, hc]
    · cases hs : splitOnNL s with
      | nil => exact absurd hs ih
      | cons l ls => simp [splitOnNL, hc, hs]

theorem splitOnNL_tail_cons_ne (c : Char) (s : List Char) (hc : ¬ c = '\n') :
    (splitOnNL (c :: s)).tail = (splitOnNL s).tail := by
  cases hs : splitOnNL s with
  | nil => exact absurd hs (splitOnNL_ne_nil s)
  | cons l ls => simp [splitOnNL, hc, hs]

theorem splitOnNL_tail_nl (s : List Char) :
    (splitOnNL ('\n' :: s)).tail = splitOnNL s := by
  simp [splitOnNL]

/-- When no line after the first consists of exactly `---`, the search
for `"\n---\n"` fails. -/
theorem findSubstring_nl3nl_none (t : List Char)
    (h : ∀ l ∈ (splitOnNL t).tail, l ≠ ['-', '-', '-']) :
    findSubstring nl3nl t = none := by
  induction t with
  | nil => decide
  | cons c t ih =>
    by_cases hc : c = '\n'
    · subst hc
      by_cases hp : openDelim.isPrefixOf t = true
      · exfalso
        obtain ⟨r, hr⟩ := List.isPrefixOf_iff_prefix.mp hp
        have ht : t = ['-', '-', '-'] ++ '\n' :: r := by rw [← hr]; rfl
        have hmem : (['-', '-', '-'] : List Char) ∈ (splitOnNL ('\n' :: t)).tail := by
          rw [splitOnNL_tail_nl, ht, splitOnNL_append_nl _ _ (by decide)]
          exact List.mem_cons_self _ _
        exact h _ hmem rfl
      · have hp' : nl3nl.isPrefixOf ('\n' :: t) = false := by
          rw [show nl3nl = '\n' :: openDelim from rfl]
          simp [List.isPrefixOf, Bool.eq_false_iff.mpr hp]
        rw [findSubstring_cons_neg _ _ _ hp',
            ih (fun l hl => h l (by rw [splitOnNL_tail_nl]; exact List.mem_of_mem_tail hl))]
        rfl
    · have hp' : nl3nl.isPrefixOf (c :: t) = false := by
        rw [show nl3nl = '\n' :: openDelim from rfl]
        exact cons_isPrefixOf_cons_false _ _ _ _ hc
      rw [findSubstring_cons_neg _ _ _ hp',
          ih (fun l hl => h l (by rw [splitOnNL_tail_cons_ne c t hc]; exact hl))]
      rfl

/-- C8: a document that begins with the opening delimiter but has no
line after it consisting of exactly `---` parses without error, with no
metadata and the entire text as the Markdown body. -/
theorem c8_no_closing_delimiter (t : List Char)
    (hopen : openDelim.isPrefixOf t = true)
    (hno : ∀ l ∈ (splitOnNL t).tail, l ≠ ['-', '-', '-']) :
    parse_markdown_file t = .ok none t := by
  unfold parse_markdown_file
  rw [if_pos hopen, findSubstring_nl3nl_none t hno]

/-- Witness for C8. -/
theorem c8_witness :
    openDelim.isPrefixOf "---\ntitle: x".toList = true ∧
    (∀ l ∈ (splitOnNL "---\ntitle: x".toList).tail, l ≠ ['-', '-', '-']) ∧
    parse_markdown_file "---\ntitle: x".toList = .ok none "---\ntitle: x".toList :=
  ⟨by decide, by decide,
    c8_no_closing_delimiter "---\ntitle: x".toList (by decide) (by decide)⟩

/-- C7 counterexample: the text `"---\ntitle: x\n---"` contains a
subsequent line consisting of exactly `---` (its final line, not
newline-terminated), yet the splitter does not recognize it: the
document is parsed as having no metadata and the whole text as body. -/
theorem c7_counterexample :
    ('-' :: '-' :: '-' :: []) ∈ (splitOnNL "---\ntitle: x\n---".toList).tail ∧
    parse_markdown_file "---\ntitle: x\n---".toList
      = .ok none "---\ntitle: x\n---".toList := by
  constructor
  · decide
  · decide

/-- C7 (amended): when the text begins with the opening delimiter line
and a later line consisting of exactly `---` is itself terminated by a
newline, the splitter takes the first such line (hypothesis `hu`) as the
closing delimiter: the metadata block is exactly the text `u` between
the delimiters and the body is exactly the text `v` after it. -/
theorem c7_closing_recognized (u v : List Char)
    (hu : ∀ j, j < 4 + u.length →
      nl3nl.isPrefixOf ((openDelim ++ u ++ '\n' :: (openDelim ++ v)).drop j) = false) :
    findSubstring nl3nl (openDelim ++ u ++ '\n' :: (openDelim ++ v)) = some (4 + u.length) ∧
    parse_markdown_file (openDelim ++ u ++ '\n' :: (openDelim ++ v))
      = match parseYaml u with
        | .ok md => .ok (some md) v
        | .error _ => .err := by
  have hlen4 : (4 : Nat) + u.length = (openDelim ++ u).length := by
    rw [List.length_append, show (openDelim : List Char).length = 4 from rfl]
  have hd : (openDelim ++ u ++ '\n' :: (openDelim ++ v)).drop (4 + u.length)
      = '\n' :: (openDelim ++ v) := by
    rw [hlen4, List.drop_left]
  have hm : nl3nl.isPrefixOf
      ((openDelim ++ u ++ '\n' :: (openDelim ++ v)).drop (4 + u.length)) = true := by
    rw [hd, show nl3nl = '\n' :: openDelim from rfl]
    simp [List.isPrefixOf, openDelim_isPrefixOf_append]
  have hfind := findSubstring_eq_some nl3nl _ (4 + u.length) hm hu
  have hopen : openDelim.isPrefixOf (openDelim ++ u ++ '\n' :: (openDelim ++ v)) = true := by
    rw [List.isPrefixOf_iff_prefix, List.append_assoc]
    exact List.prefix_append _ _
  refine ⟨hfind, ?_⟩
  rw [parse_markdown_file_eq_of_found _ _ hopen hfind (by omega)]
  have h4 : (openDelim ++ u ++ '\n' :: (openDelim ++ v)).drop 4
      = u ++ '\n' :: (openDelim ++ v) := by
    rw [List.append_assoc, show (4 : Nat) = openDelim.length from rfl, List.drop_left]
  have hblock : ((openDelim ++ u ++ '\n' :: (openDelim ++ v)).drop 4).take (4 + u.length - 4)
      = u := by
    rw [h4, show 4 + u.length - 4 = u.length from by omega, List.take_left]
  have hB : openDelim ++ u ++ '\n' :: (openDelim ++ v)
      = (openDelim ++ u ++ ('\n' :: openDelim)) ++ v := by
    simp only [List.append_assoc, List.cons_append]
  have hbody : (openDelim ++ u ++ '\n' :: (openDelim ++ v)).drop (4 + u.length + 5) = v := by
    rw [hB]
    have hlen : 4 + u.length + 5 = (openDelim ++ u ++ ('\n' :: openDelim)).length := by
      simp only [List.length_append, List.length_cons]
      have : (openDelim : List Char).length = 4 := rfl
      omega
    rw [hlen, List.drop_left]
  rw [hblock, hbody]

/-- Witness for the amended C7. -/
theorem c7_witness :
    findSubstring nl3nl (openDelim ++ "title: a".toList
        ++ '\n' :: (openDelim ++ "b\n".toList)) = some (4 + ("title: a".toList : List Char).length) ∧
    parse_markdown_file (openDelim ++ "title: a".toList ++ '\n' :: (openDelim ++ "b\n".toList))
      = match parseYaml "title: a".toList with
        | .ok md => .ok (some md) "b\n".toList
        | .error _ => .err :=
  c7_closing_recognized "title: a".toList "b\n".toList (by decide)

/-! ## Metadata parse failure is a per-document skip (C3) -/

theorem kv_line_ne_nil (k v : List Char) : k ++ ':' :: ' ' :: v ≠ [] := by
  cases k <;> simp

/-- A block binding the same key on two lines is rejected (the
duplicate-key rule of the structured-data format). -/
theorem parseYaml_dup_key (k v₁ v₂ : List Char) (hk : ':' ∉ k) (hknl : '\n' ∉ k)
    (h1 : '\n' ∉ v₁) (h2 : '\n' ∉ v₂) :
    parseYaml ((k ++ ':' :: ' ' :: v₁) ++ '\n' :: (k ++ ':' :: ' ' :: v₂)) = .error () := by
  have hl1 : '\n' ∉ k ++ ':' :: ' ' :: v₁ := not_nl_append hknl (not_nl_mem_colon_space v₁ h1)
  have hl2 : '\n' ∉ k ++ ':' :: ' ' :: v₂ := not_nl_append hknl (not_nl_mem_colon_space v₂ h2)
  have hsplit : splitOnNL ((k ++ ':' :: ' ' :: v₁) ++ '\n' :: (k ++ ':' :: ' ' :: v₂))
      = [(k ++ ':' :: ' ' :: v₁), (k ++ ':' :: ' ' :: v₂)] := by
    rw [splitOnNL_append_nl _ _ hl1, splitOnNL_no_nl _ hl2]
  have hents : allEntries [(k ++ ':' :: ' ' :: v₁), (k ++ ':' :: ' ' :: v₂)]
      = some [(k, v₁), (k, v₂)] := by
    rw [allEntries_cons _ _ _ (parseEntry_keyval k v₁ hk),
        allEntries_cons _ _ _ (parseEntry_keyval k v₂ hk), allEntries_nil]
    rfl
  have hdup : ¬ (List.map Prod.fst [(k, v₁), (k, v₂)]).Nodup := by
    simp
  simp only [parseYaml, hsplit,
    filter_ne_nil_pair _ _ (kv_line_ne_nil k v₁) (kv_line_ne_nil k v₂), hents]
  rw [if_neg hdup]

theorem processDoc_skip_of_parse_err (cfg : Config) (fs : FS) (tpl : List Char)
    (css : Option (List Char)) (d : Document) (t : List Char)
    (htext : d.text = some t) (herr : parse_markdown_file t = .err) :
    processDoc cfg fs tpl css d = .skip := by
  unfold processDoc
  rw [htext]
  simp only [herr]
  split
  · rfl
  · split
    · rfl
    · split
      · rfl
      · rfl

theorem runDocs_cons_skip (cfg : Config) (fs : FS) (tpl : List Char)
    (css : Option (List Char)) (d : Document) (ds : List Document)
    (h : processDoc cfg fs tpl css d = .skip) :
    runDocs cfg fs tpl css (d :: ds) = runDocs cfg fs tpl css ds := by
  simp [runDocs, h]

/-- C3: a document whose front-matter block fails to parse as the
`PageMetadata` shape makes `parse_markdown_file` return an error, the
document contributes no output, and the walker continues with the
remaining documents; in particular a block binding the same key twice
(e.g. two `title:` lines) is such a failure. -/
theorem c3_metadata_failure_skips (cfg : Config) (fs : FS) (tpl : List Char)
    (css : Option (List Char)) (d : Document) (ds : List Document) (t : List Char) (e : Nat)
    (htext : d.text = some t)
    (hopen : openDelim.isPrefixOf t = true)
    (hfind : findSubstring nl3nl t = some e) (he : 4 ≤ e)
    (hfail : parseYaml ((t.drop 4).take (e - 4)) = .error ()) :
    parse_markdown_file t = .err ∧
    processDoc cfg fs tpl css d = .skip ∧
    runDocs cfg fs tpl css (d :: ds) = runDocs cfg fs tpl css ds ∧
    (∀ k v₁ v₂ : List Char, ':' ∉ k → '\n' ∉ k → '\n' ∉ v₁ → '\n' ∉ v₂ →
      parseYaml ((k ++ ':' :: ' ' :: v₁) ++ '\n' :: (k ++ ':' :: ' ' :: v₂)) = .error ()) := by
  have herr : parse_markdown_file t = .err := by
    rw [parse_markdown_file_eq_of_found _ _ hopen hfind he, hfail]
  have hskip := processDoc_skip_of_parse_err cfg fs tpl css d t htext herr
  exact ⟨herr, hskip, runDocs_cons_skip cfg fs tpl css d ds hskip,
    fun k v₁ v₂ hk hknl h1 h2 => parseYaml_dup_key k v₁ v₂ hk hknl h1 h2⟩

/-- Witness for C3 at the repository's own `test_malformed_yaml` input. -/
theorem c3_witness :
    parse_markdown_file "---\ntitle: a\ntitle: b\n---\nx".toList = .err ∧
    parseYaml (("title".toList ++ ':' :: ' ' :: "a".toList)
        ++ '\n' :: ("title".toList ++ ':' :: ' ' :: "b".toList)) = .error () := by
  have h := c3_metadata_failure_skips
    ⟨["src".toList], ["out".toList], "tpl".toList, none⟩
    ⟨some [], true, fun _ => none, true, fun _ => true, id, fun _ ctx => some ctx.content,
      fun _ => true, fun _ => true, true⟩
    [] none
    ⟨["src".toList, "a.md".toList], some "---\ntitle: a\ntitle: b\n---\nx".toList⟩
    [] "---\ntitle: a\ntitle: b\n---\nx".toList 21
    rfl (by decide) (by decide) (by decide) (by decide)
  exact ⟨h.1, h.2.2.2 "title".toList "a".toList "b".toList
    (by decide) (by decide) (by decide) (by decide)⟩

/-! ## Defaults in the render context (C6) -/

/-- A single-line block `title: T` parses with `description`
defaulting to the empty string. -/
theorem parseYaml_title_only (T : List Char) (hT : '\n' ∉ T) :
    parseYaml ("title".toList ++ ':' :: ' ' :: T) = .ok ⟨T, []⟩ := by
  have hsplit : splitOnNL ("title".toList ++ ':' :: ' ' :: T)
      = [("title".toList ++ ':' :: ' ' :: T)] :=
    splitOnNL_no_nl _ (not_nl_append (by decide) (not_nl_mem_colon_space T hT))
  have hents : allEntries [("title".toList ++ ':' :: ' ' :: T)]
      = some [(("title".toList : List Char), T)] := by
    rw [allEntries_cons _ _ _ (parseEntry_keyval _ _ (by decide)), allEntries_nil]
    rfl
  have hnodup : (List.map Prod.fst [(("title".toList : List Char), T)]).Nodup := by
    simp
  have hfil : List.filter (fun l => l ≠ []) [("title".toList ++ ':' :: ' ' :: T)]
      = [("title".toList ++ ':' :: ' ' :: T)] := by
    simp [List.filter_cons, kv_line_ne_nil]
  simp only [parseYaml, hsplit, hfil, hents]
  rw [if_pos hnodup]
  simp [lookupKey, titleKey, descKey]

/-- A single-line block `description: D` lacks the required `title`
field and fails to parse. -/
theorem parseYaml_desc_only (D : List Char) (hD : '\n' ∉ D) :
    parseYaml ("description".toList ++ ':' :: ' ' :: D) = .error () := by
  have hsplit : splitOnNL ("description".toList ++ ':' :: ' ' :: D)
      = [("description".toList ++ ':' :: ' ' :: D)] :=
    splitOnNL_no_nl _ (not_nl_append (by decide) (not_nl_mem_colon_space D hD))
  have hents : allEntries [("description".toList ++ ':' :: ' ' :: D)]
      = some [(("description".toList : List Char), D)] := by
    rw [allEntries_cons _ _ _ (parseEntry_keyval _ _ (by decide)), allEntries_nil]
    rfl
  have hnodup : (List.map Prod.fst [(("description".toList : List Char), D)]).Nodup := by
    simp
  have hfil : List.filter (fun l => l ≠ []) [("description".toList ++ ':' :: ' ' :: D)]
      = [("description".toList ++ ':' :: ' ' :: D)] := by
    simp [List.filter_cons, kv_line_ne_nil]
  have hne : ("description".toList : List Char) ≠ "title".toList := by decide
  simp only [parseYaml, hsplit, hfil, hents]
  rw [if_pos hnodup]
  simp [lookupKey, titleKey, hne]

/-- C6 counterexample: for the document `"---\ndescription: x\n---\ny"`,
whose block lacks a `title`, the claim says the render context receives
the placeholder title; instead the document fails to parse (the `title`
field is required), so no render context is built for it at all. -/
theorem c6_counterexample :
    parse_markdown_file "---\ndescription: x\n---\ny".toList = .err ∧
    processDoc ⟨["src".toList], ["out".toList], "tpl".toList, none⟩
        ⟨some [], true, fun _ => none, true, fun _ => true, id,
          fun _ ctx => some ctx.content, fun _ => true, fun _ => true, true⟩
        [] none
        ⟨["src".toList, "a.md".toList], some "---\ndescription: x\n---\ny".toList⟩
      = .skip := by
  constructor
  · decide
  · decide

/-- C6 (amended): a document with no opening delimiter yields metadata
`none`, and the render context then carries the placeholder title
`"Untitled"` and the empty description; a block omitting `description`
parses with the empty description; but a block lacking `title` is a
metadata parse error (a parsed metadata value never lacks a title), so
the placeholder is used exactly when no metadata was parsed. -/
theorem c6_defaults :
    (∀ t : List Char, openDelim.isPrefixOf t = false → parse_markdown_file t = .ok none t) ∧
    (∀ (html : List Char) (css : Option (List Char)),
      buildContext none html css
        = { content := html, title := "Untitled".toList, description := [], css := css }) ∧
    (∀ T : List Char, plainScalar T →
      parseYaml ("title".toList ++ ':' :: ' ' :: T) = .ok ⟨T, []⟩) ∧
    (∀ D : List Char, plainScalar D →
      parseYaml ("description".toList ++ ':' :: ' ' :: D) = .error ()) := by
  refine ⟨?_, ?_, ?_, ?_⟩
  · intro t ht
    unfold parse_markdown_file
    rw [if_neg (by simp [ht])]
  · intro html css
    rfl
  · intro T hT
    exact parseYaml_title_only T hT.not_nl
  · intro D hD
    exact parseYaml_desc_only D hD.not_nl

/-- Witness for the amended C6. -/
theorem c6_witness :
    parse_markdown_file "# h".toList = .ok none "# h".toList ∧
    buildContext none "<p>x</p>".toList none
      = { content := "<p>x</p>".toList, title := "Untitled".toList,
          description := [], css := none } ∧
    parseYaml ("title".toList ++ ':' :: ' ' :: "x".toList) = .ok ⟨"x".toList, []⟩ ∧
    parseYaml ("description".toList ++ ':' :: ' ' :: "x".toList) = .error () :=
  ⟨c6_defaults.1 "# h".toList (by decide),
    c6_defaults.2.1 "<p>x</p>".toList none,
    c6_defaults.2.2.1 "x".toList (by decide),
    c6_defaults.2.2.2 "x".toList (by decide)⟩

/-! ## Unknown keys are ignored (C10) -/

/-- C10: a block with the required `title` plus an unknown key parses
successfully, the unknown key silently ignored; by contrast the same
block shape with `title` given twice is a duplicate-key error. -/
theorem c10_unknown_keys_ignored (T k v : List Char) (hT : plainScalar T)
    (hknl : '\n' ∉ k) (hkc : ':' ∉ k)
    (hkt : k ≠ "title".toList) (hkd : k ≠ "description".toList) (hv : '\n' ∉ v) :
    parseYaml (("title".toList ++ ':' :: ' ' :: T) ++ '\n' :: (k ++ ':' :: ' ' :: v))
      = .ok ⟨T, []⟩ ∧
    parseYaml (("title".toList ++ ':' :: ' ' :: T)
        ++ '\n' :: ("title".toList ++ ':' :: ' ' :: v)) = .error () := by
  have hTnl : '\n' ∉ T := hT.not_nl
  constructor
  · have hl1 : '\n' ∉ "title".toList ++ ':' :: ' ' :: T :=
      not_nl_append (by decide) (not_nl_mem_colon_space T hTnl)
    have hl2 : '\n' ∉ k ++ ':' :: ' ' :: v :=
      not_nl_append hknl (not_nl_mem_colon_space v hv)
    have hsplit : splitOnNL (("title".toList ++ ':' :: ' ' :: T)
          ++ '\n' :: (k ++ ':' :: ' ' :: v))
        = [("title".toList ++ ':' :: ' ' :: T), (k ++ ':' :: ' ' :: v)] := by
      rw [splitOnNL_append_nl _ _ hl1, splitOnNL_no_nl _ hl2]
    have hents : allEntries [("title".toList ++ ':' :: ' ' :: T), (k ++ ':' :: ' ' :: v)]
        = some [(("title".toList : List Char), T), (k, v)] := by
      rw [allEntries_cons _ _ _ (parseEntry_keyval _ _ (by decide)),
          allEntries_cons _ _ _ (parseEntry_keyval _ _ hkc), allEntries_nil]
      rfl
    have hnodup : (List.map Prod.fst [(("title".toList : List Char), T), (k, v)]).Nodup := by
      simp only [List.map_cons, List.map_nil]
      refine List.nodup_cons.mpr ⟨?_, ?_⟩
      · intro h
        exact hkt (List.mem_singleton.mp h).symm
      · simp
    simp only [parseYaml, hsplit,
      filter_ne_nil_pair _ _ (kv_line_ne_nil _ _) (kv_line_ne_nil _ _), hents]
    rw [if_pos hnodup]
    have hkd' : k ≠ ['d', 'e', 's', 'c', 'r', 'i', 'p', 't', 'i', 'o', 'n'] := hkd
    simp [lookupKey, titleKey, descKey, hkd']
  · exact parseYaml_dup_key "title".toList T v (by decide) (by decide) hTnl hv

/-- Witness for C10 with the unknown key `author`. -/
theorem c10_witness :
    parseYaml (("title".toList ++ ':' :: ' ' :: "Test".toList)
        ++ '\n' :: ("author".toList ++ ':' :: ' ' :: "me".toList)) = .ok ⟨"Test".toList, []⟩ ∧
    parseYaml (("title".toList ++ ':' :: ' ' :: "Test".toList)
        ++ '\n' :: ("title".toList ++ ':' :: ' ' :: "me".toList)) = .error () :=
  c10_unknown_keys_ignored "Test".toList "author".toList "me".toList
    (by decide) (by decide) (by decide) (by decide) (by decide) (by decide)

/-! ## Partial-failure isolation (C4) -/

theorem runDocs_all_done (cfg : Config) (fs : FS) (tpl : List Char)
    (css : Option (List Char)) (docs : List Document)
    (h : ∀ d ∈ docs, ∃ out, processDoc cfg fs tpl css d = .done out) :
    ∃ written, runDocs cfg fs tpl css docs = some written
      ∧ written.length = docs.length := by
  induction docs with
  | nil => exact ⟨[], rfl, rfl⟩
  | cons d ds ih =>
    obtain ⟨out, hout⟩ := h d (List.mem_cons_self d ds)
    obtain ⟨w, hw, hlen⟩ := ih (fun d' hd' => h d' (List.mem_cons_of_mem _ hd'))
    exact ⟨out :: w, by simp [runDocs, hout, hw], by simp [hlen]⟩

theorem runDocs_one_skip (cfg : Config) (fs : FS) (tpl : List Char)
    (css : Option (List Char)) (bad : Document)
    (hbad : processDoc cfg fs tpl css bad = .skip) :
    ∀ docs : List Document, bad ∈ docs → docs.count bad = 1 →
      (∀ d ∈ docs, d ≠ bad → ∃ out, processDoc cfg fs tpl css d = .done out) →
      ∃ written, runDocs cfg fs tpl css docs = some written
        ∧ written.length = docs.length - 1 := by
  intro docs
  induction docs with
  | nil =>
    intro hmem
    simp at hmem
  | cons d ds ih =>
    intro hmem hcount hgood
    by_cases hd : d = bad
    · subst hd
      have hnotin : d ∉ ds := by
        rw [List.count_cons_self] at hcount
        exact List.count_eq_zero.mp (by omega)
      obtain ⟨w, hw, hlen⟩ := runDocs_all_done cfg fs tpl css ds
        (fun d' hd' => hgood d' (List.mem_cons_of_mem _ hd')
          (fun he => hnotin (he ▸ hd')))
      refine ⟨w, ?_, ?_⟩
      · rw [runDocs_cons_skip _ _ _ _ _ _ hbad, hw]
      · simp [hlen]
    · have hdmem : bad ∈ ds := by
        rcases List.mem_cons.mp hmem with h | h
        · exact absurd h.symm hd
        · exact h
      have hcount' : ds.count bad = 1 := by
        rw [List.count_cons] at hcount
        have hne : (d == bad) = false := by
          simp [hd]
        rw [hne] at hcount
        simpa using hcount
      obtain ⟨out, hout⟩ := hgood d (List.mem_cons_self _ _) hd
      obtain ⟨w, hw, hlen⟩ := ih hdmem hcount'
        (fun d' hd' hne' => hgood d' (List.mem_cons_of_mem _ hd') hne')
      have hpos : 0 < ds.length := List.length_pos_of_mem hdmem
      refine ⟨out :: w, ?_, ?_⟩
      · simp [runDocs, hout, hw]
      · simp only [List.length_cons, hlen]
        omega

/-- C4: when loading succeeds and, of the enumerated documents, exactly
one has malformed metadata while every other one processes fully, the
run still returns success and produces exactly N−1 output files. -/
theorem c4_isolation (cfg : Config) (fs : FS) (tpl : List Char) (css : Option (List Char))
    (docs : List Document) (bad : Document) (t : List Char)
    (htpl : fs.templateRead = some tpl) (hadd : fs.templateAddOk = true)
    (hcss : cssLoad cfg fs = .ok css) (hroot : fs.createOutRootOk = true)
    (hmem : bad ∈ docs) (hcount : docs.count bad = 1)
    (htext : bad.text = some t) (herr : parse_markdown_file t = .err)
    (hgood : ∀ d ∈ docs, d ≠ bad → ∃ out, processDoc cfg fs tpl css d = .done out) :
    ∃ written, generate_site cfg fs docs = .ok written
      ∧ written.length = docs.length - 1 := by
  have hskip := processDoc_skip_of_parse_err cfg fs tpl css bad t htext herr
  obtain ⟨w, hw, hlen⟩ := runDocs_one_skip cfg fs tpl css bad hskip docs hmem hcount hgood
  refine ⟨w, ?_, hlen⟩
  unfold generate_site
  rw [htpl]
  dsimp only
  rw [if_neg (by simp [hadd]), hcss]
  dsimp only
  rw [if_neg (by simp [hroot]), hw]

/-- Witness for C4: two documents, the second with duplicate metadata
keys; one output file is produced and the run succeeds. -/
theorem c4_witness :
    ∃ written, generate_site
        ⟨["src".toList], ["out".toList], "tpl".toList, none⟩
        ⟨some "T".toList, true, fun _ => none, true, fun _ => true, id,
          fun _ ctx => some ctx.content, fun _ => true, fun _ => true, true⟩
        [⟨["src".toList, "a.md".toList], some "hello".toList⟩,
         ⟨["src".toList, "b.md".toList], some "---\ntitle: a\ntitle: b\n---\nx".toList⟩]
      = .ok written ∧
    written.length
      = ([⟨["src".toList, "a.md".toList], some "hello".toList⟩,
          ⟨["src".toList, "b.md".toList],
            some "---\ntitle: a\ntitle: b\n---\nx".toList⟩] : List Document).length - 1 := by
  refine c4_isolation
    ⟨["src".toList], ["out".toList], "tpl".toList, none⟩
    ⟨some "T".toList, true, fun _ => none, true, fun _ => true, id,
      fun _ ctx => some ctx.content, fun _ => true, fun _ => true, true⟩
    "T".toList none
    [⟨["src".toList, "a.md".toList], some "hello".toList⟩,
     ⟨["src".toList, "b.md".toList], some "---\ntitle: a\ntitle: b\n---\nx".toList⟩]
    ⟨["src".toList, "b.md".toList], some "---\ntitle: a\ntitle: b\n---\nx".toList⟩
    "---\ntitle: a\ntitle: b\n---\nx".toList
    rfl rfl rfl rfl (by decide) (by decide) rfl (by decide) ?_
  intro d hd hne
  rcases List.mem_cons.mp hd with h | h
  · exact ⟨(["out".toList, "a.html".toList], "hello".toList), by rw [h]; decide⟩
  · exfalso
    exact hne (List.mem_singleton.mp h)

/-! ## Fatal causes of the whole run (C5) -/

theorem parse_markdown_file_panics_imp (t : List Char)
    (h : parse_markdown_file t = .panics) :
    panicDelim.isPrefixOf t = true := by
  unfold parse_markdown_file at h
  by_cases hopen : openDelim.isPrefixOf t = true
  · rw [if_pos hopen] at h
    rcases hf : findSubstring nl3nl t with _ | e
    · rw [hf] at h
      simp at h
    · rw [hf] at h
      dsimp only at h
      by_cases he : e < 4
      · have hm := findSubstring_isPrefixOf_drop _ _ _ hf
        obtain ⟨r, hr⟩ := List.isPrefixOf_iff_prefix.mp hopen
        rw [← hr] at hm ⊢
        rw [show nl3nl = '\n' :: openDelim from rfl] at hm
        have he4 : e = 0 ∨ e = 1 ∨ e = 2 ∨ e = 3 := by omega
        rcases he4 with rfl | rfl | rfl | rfl
        · have hd0 : (openDelim ++ r).drop 0 = '-' :: ("--\n".toList ++ r) := rfl
          rw [hd0, cons_isPrefixOf_cons_false '\n' openDelim '-' _ (by decide)] at hm
          exact absurd hm (by decide)
        · have hd1 : (openDelim ++ r).drop 1 = '-' :: ("-\n".toList ++ r) := rfl
          rw [hd1, cons_isPrefixOf_cons_false '\n' openDelim '-' _ (by decide)] at hm
          exact absurd hm (by decide)
        · have hd2 : (openDelim ++ r).drop 2 = '-' :: ("\n".toList ++ r) := rfl
          rw [hd2, cons_isPrefixOf_cons_false '\n' openDelim '-' _ (by decide)] at hm
          exact absurd hm (by decide)
        · have hd3 : (openDelim ++ r).drop 3 = '\n' :: r := rfl
          rw [hd3] at hm
          have hro : openDelim.isPrefixOf r = true := by
            simpa [List.isPrefixOf] using hm
          obtain ⟨r', hr'⟩ := List.isPrefixOf_iff_prefix.mp hro
          rw [List.isPrefixOf_iff_prefix]
          refine ⟨r', ?_⟩
          rw [← hr']
          rfl
      · rw [if_neg he] at h
        split at h <;> simp at h
  · rw [if_neg hopen] at h
    simp at h

theorem processDoc_panics_imp (cfg : Config) (fs : FS) (tpl : List Char)
    (css : Option (List Char)) (d : Document)
    (h : processDoc cfg fs tpl css d = .panics) :
    ∃ t, d.text = some t ∧ panicDelim.isPrefixOf t = true := by
  rcases htext : d.text with _ | t
  · exfalso
    unfold processDoc at h
    rw [htext] at h
    dsimp only at h
    split at h
    · simp at h
    · split at h
      · simp at h
      · split at h <;> simp at h
  · rcases hp : parse_markdown_file t with ⟨md, body⟩ | _ | _
    · exfalso
      unfold processDoc at h
      rw [htext] at h
      dsimp only at h
      rw [hp] at h
      dsimp only at h
      split at h
      · simp at h
      · split at h
        · simp at h
        · split at h
          · simp at h
          · split at h
            · simp at h
            · split at h
              · simp at h
              · split at h <;> simp at h
    · exfalso
      unfold processDoc at h
      rw [htext] at h
      dsimp only at h
      rw [hp] at h
      dsimp only at h
      split at h
      · simp at h
      · split at h
        · simp at h
        · split at h <;> simp at h
    · exact ⟨t, rfl, parse_markdown_file_panics_imp t hp⟩

theorem runDocs_none_imp (cfg : Config) (fs : FS) (tpl : List Char)
    (css : Option (List Char)) :
    ∀ docs : List Document, runDocs cfg fs tpl css docs = none →
      ∃ d ∈ docs, ∃ t, d.text = some t ∧ panicDelim.isPrefixOf t = true := by
  intro docs
  induction docs with
  | nil =>
    intro h
    simp [runDocs] at h
  | cons d ds ih =>
    intro h
    rcases hp : processDoc cfg fs tpl css d with _ | _ | out
    · rw [runDocs_cons_skip _ _ _ _ _ _ hp] at h
      obtain ⟨d', hd', t, ht, hpt⟩ := ih h
      exact ⟨d', List.mem_cons_of_mem _ hd', t, ht, hpt⟩
    · obtain ⟨t, ht, hpt⟩ := processDoc_panics_imp cfg fs tpl css d hp
      exact ⟨d, List.mem_cons_self _ _, t, ht, hpt⟩
    · rw [show runDocs cfg fs tpl css (d :: ds)
          = (runDocs cfg fs tpl css ds).map (out :: ·) from by simp [runDocs, hp]] at h
      obtain ⟨d', hd', t, ht, hpt⟩ := ih (by simpa using h)
      exact ⟨d', List.mem_cons_of_mem _ hd', t, ht, hpt⟩

/-- C5 counterexample: a run whose configuration parses, whose template
is readable and whose output root is created still terminates with a
non-zero status, because the configured stylesheet cannot be read — a
fatal cause the claim does not allow. -/
theorem c5_counterexample :
    rustMain
        (some ⟨["src".toList], ["out".toList], "tpl".toList, some "style.css".toList⟩)
        ⟨some "T".toList, true, fun _ => none, true, fun _ => true, id,
          fun _ ctx => some ctx.content, fun _ => true, fun _ => true, true⟩ []
      = .failure ∧
    (⟨some "T".toList, true, fun _ => none, true, fun _ => true, id,
      fun _ ctx => some ctx.content, fun _ => true, fun _ => true, true⟩ : FS).templateRead
      = some "T".toList ∧
    (⟨some "T".toList, true, fun _ => none, true, fun _ => true, id,
      fun _ ctx => some ctx.content, fun _ => true, fun _ => true, true⟩ : FS).createOutRootOk
      = true := by
  refine ⟨?_, rfl, rfl⟩
  decide

/-- C5 (amended): the process terminates with a non-zero status only
for an unreadable or unparsable configuration file, an unreadable or
unparsable template, an unreadable configured stylesheet, failure to
create the output root, or a document whose text begins with an
immediately closed front-matter block (which panics the slice
`&content[4..end]`); every other failure is non-fatal. -/
theorem c5_fatal_causes (configLoad : Option Config) (fs : FS) (docs : List Document)
    (h : rustMain configLoad fs docs = .failure) :
    configLoad = none ∨
    fs.templateRead = none ∨
    fs.templateAddOk = false ∨
    (∃ cfg p, configLoad = some cfg ∧ cfg.css_file = some p ∧ fs.cssRead p = none) ∨
    fs.createOutRootOk = false ∨
    (∃ d ∈ docs, ∃ t, d.text = some t ∧ panicDelim.isPrefixOf t = true) := by
  cases configLoad with
  | none => exact Or.inl rfl
  | some cfg =>
    rcases hread : fs.templateRead with _ | tpl
    · exact Or.inr (Or.inl rfl)
    · by_cases hadd : fs.templateAddOk = true
      · rcases hcl : cssLoad cfg fs with u | css
        · right; right; right; left
          unfold cssLoad at hcl
          rcases hcf : cfg.css_file with _ | p
          · rw [hcf] at hcl
            simp at hcl
          · rw [hcf] at hcl
            dsimp only at hcl
            rcases hcr : fs.cssRead p with _ | c
            · exact ⟨cfg, p, rfl, hcf, hcr⟩
            · rw [hcr] at hcl
              simp at hcl
        · by_cases hroot : fs.createOutRootOk = true
          · rcases hrun : runDocs cfg fs tpl css docs with _ | w
            · right; right; right; right; right
              exact runDocs_none_imp cfg fs tpl css docs hrun
            · exfalso
              unfold rustMain generate_site at h
              rw [hread] at h
              dsimp only at h
              rw [if_neg (by simp [hadd]), hcl] at h
              dsimp only at h
              rw [if_neg (by simp [hroot]), hrun] at h
              simp at h
          · exact Or.inr (Or.inr (Or.inr (Or.inr (Or.inl
              (Bool.eq_false_iff.mpr hroot)))))
      · exact Or.inr (Or.inr (Or.inl (Bool.eq_false_iff.mpr hadd)))

/-- Witness for the amended C5 at an unparsable configuration. -/
theorem c5_witness :
    (none : Option Config) = none ∨
    (⟨none, true, fun _ => none, true, fun _ => true, id, fun _ _ => none,
      fun _ => true, fun _ => true, true⟩ : FS).templateRead = none ∨
    (⟨none, true, fun _ => none, true, fun _ => true, id, fun _ _ => none,
      fun _ => true, fun _ => true, true⟩ : FS).templateAddOk = false ∨
    (∃ cfg p, (none : Option Config) = some cfg ∧ cfg.css_file = some p ∧
      (⟨none, true, fun _ => none, true, fun _ => true, id, fun _ _ => none,
        fun _ => true, fun _ => true, true⟩ : FS).cssRead p = none) ∨
    (⟨none, true, fun _ => none, true, fun _ => true, id, fun _ _ => none,
      fun _ => true, fun _ => true, true⟩ : FS).createOutRootOk = false ∨
    (∃ d ∈ ([] : List Document), ∃ t, d.text = some t ∧ panicDelim.isPrefixOf t = true) :=
  c5_fatal_causes none
    ⟨none, true, fun _ => none, true, fun _ => true, id, fun _ _ => none,
      fun _ => true, fun _ => true, true⟩ [] rfl

